import Mathlib

/-!
Verification of the producer/consumer acquisition pipeline of `niadc_gui.py`
(classes `Measurement` and `DataAcquisition`), as a shallow embedding.

Modelling choices:
* Voltage samples and nanosecond timestamps are rationals (`ℚ`): the claims
  under scrutiny are about exact interval spacing, queue lengths and ordering,
  which the rationals capture exactly.
* A `collections.deque(maxlen=c)` is a `List` together with the capacity `c`;
  `extend` appends on the right and evicts from the left once the length
  exceeds `c` (`dequeExtend`).
* `Measurement.run`'s loop body becomes the pure step function `loopStep` on a
  state holding the shared `data_queue` list and the local accumulator `data`;
  the hardware read of one block and the current value of the `lock` flag are
  the step's inputs.
* `np.linspace(a, b, num)` becomes `linspace` (exact arithmetic), and the
  timestamp vector of line 266, `np.linspace(t, t + rt*1e9, 1+n)[:-1]`, becomes
  `tsVector t (rt*1e9) n`.
* `DataAcquisition._data_acquisition` becomes `dataAcquisitionStep`:
  copy the queues, re-init them, and if non-empty reshape via
  `np.array(data).T.reshape((-1, ch+1))`, which on `ch+1` equal-length rows is
  the transpose (`npTransposeReshape`).
* The CSV file is a header plus a list of rows; `to_csv(mode='x')` fails iff
  the path is occupied and touches nothing on failure (`createSession`);
  `to_csv(mode='a', header=False)` appends rows (`appendRows`).
* Python's `int(str)` on a config entry is `parsePyInt` (optional sign then
  decimal digits); `str.split(',')` is `splitComma` (on the empty string it
  yields one empty field, as in Python).
* Channel ordering (lines 244-247 and 261-262): the task is created over the
  ascending hardware range `ai{min}:{max}` and the vendor driver delivers one
  sample list per hardware channel in ascending index order;
  `_channel_bool` keeps exactly the configured ones, so the per-channel lists
  handed to the loop — and hence the queues — follow `selectedChannels`, the
  configured channels in ascending index order, not the configured order.
-/

/-- One `deque.extend(xs)` on a deque with contents `q` and `maxlen = c`:
append on the right, then evict from the left down to `c` elements. -/
def dequeExtend (c : Nat) (q xs : List ℚ) : List ℚ :=
  (q ++ xs).drop (q.length + xs.length - c)

/-- `collections.deque(maxlen=m)` (`Measurement.q_init`, line 238): CPython
rejects a negative `maxlen` with `ValueError` and otherwise returns an empty
deque — `maxlen = 0` included. -/
def dequeNew (maxlen : Int) : Except String (List ℚ) :=
  if maxlen < 0 then Except.error "maxlen must be non-negative" else Except.ok []

/-- The list comprehension of `q_init`: `n` fresh deques, failing as soon as
one constructor call fails. -/
def dequeList (dataLength : Int) : Nat → Except String (List (List ℚ))
  | 0 => Except.ok []
  | n + 1 => do
    let q ← dequeNew dataLength
    let qs ← dequeList dataLength n
    pure (q :: qs)

/-- `Measurement.q_init` (lines 236-239): one deque per configured channel plus
one for timestamps, each with `maxlen = dataLength`. -/
def q_init (dataLength : Int) (numCh : Nat) : Except String (List (List ℚ)) :=
  dequeList dataLength (numCh + 1)

/-- The loop of lines 269-270: `data_queue[j+1].extend(data[j])` for each
configured channel index `j`; queues beyond the given values are untouched. -/
def extendEach (c : Nat) : List (List ℚ) → List (List ℚ) → List (List ℚ)
  | qs, [] => qs
  | [], _ => []
  | q :: qs, v :: vs => dequeExtend c q v :: extendEach c qs vs

/-- Lines 265-270 of `Measurement.run`: extend the timestamp queue
(`data_queue[0]`) with `ts` and each channel queue (`data_queue[j+1]`) with the
`j`-th value list. -/
def pushAll (c : Nat) (queues : List (List ℚ)) (ts : List ℚ)
    (vals : List (List ℚ)) : List (List ℚ) :=
  match queues with
  | [] => []
  | q0 :: rest => dequeExtend c q0 ts :: extendEach c rest vals

/-- `np.linspace(a, b, num)` with endpoint included, in exact arithmetic:
`num` evenly spaced points from `a` to `b`.  For `num = 1` this is `[a]` and
for `num = 0` it is `[]`, as in NumPy. -/
def linspace (a b : ℚ) (num : Nat) : List ℚ :=
  (List.range num).map (fun i : ℕ => a + (i : ℚ) * (b - a) / ((num : ℚ) - 1))

/-- Line 266-267 of `Measurement.run`:
`np.linspace(t, t + d, 1 + n)[:-1]` — `n` instants starting at `t`, spaced
`d / n` apart, endpoint `t + d` excluded. -/
def tsVector (t d : ℚ) (n : Nat) : List ℚ :=
  (linspace t (t + d) (n + 1)).dropLast

/-- `read_timeout = read_samples / sampling_rate` (line 229), which is also the
block duration `block_size / sampling_rate` in seconds. -/
def read_timeout (readSamples samplingRate : Nat) : ℚ :=
  (readSamples : ℚ) / (samplingRate : ℚ)

/-- State of `Measurement.run`'s loop: the shared ring-buffer queues
(`data_queue`, index 0 the timestamps, index `j+1` the `j`-th active channel
in ascending channel-index order, see `selectedChannels`) and the local
accumulator `data` of line 253. -/
structure MeasState where
  queues : List (List ℚ)
  data : List (List ℚ)
  deriving Repr, DecidableEq

/-- One iteration of the `while` loop of `Measurement.run` (lines 255-271):
the block read at `starttime` is concatenated onto the local accumulator
(line 263, which runs whether or not the gate is set); if `lock` is clear the
timestamp vector is generated over one block duration (`rt * 1e9`
nanoseconds) for the accumulator's full sample count, everything is pushed
into the queues, and the accumulator is reset (lines 264-271); if `lock` is
set the queues are left alone and the accumulator is kept. -/
def loopStep (c : Nat) (rt : ℚ) (numCh : Nat) (st : MeasState)
    (starttime : ℚ) (block : List (List ℚ)) (lock : Bool) : MeasState :=
  let data := List.zipWith (· ++ ·) st.data block
  if lock then ⟨st.queues, data⟩
  else
    ⟨pushAll c st.queues
        (tsVector starttime (rt * 1000000000) (data.getD 0 []).length) data,
      List.replicate (numCh + 1) []⟩

/-- The evolution of the local accumulator `data` over a sequence of blocks:
starting from the reset value `[list()] * (len(channel)+1)` (lines 253 and
271), each block is concatenated channel-wise (line 263,
`data = [lst + _lst for lst, _lst in zip(data, _data)]`). -/
def accumData (numCh : Nat) (blocks : List (List (List ℚ))) : List (List ℚ) :=
  blocks.foldl (fun acc b => List.zipWith (· ++ ·) acc b)
    (List.replicate (numCh + 1) [])

/-- A run of consecutive loop iterations; each element of `iters` is one
hardware read: block start time, per-channel sample lists, and the value the
`lock` flag holds when line 264 tests it. -/
def runIters (c : Nat) (rt : ℚ) (numCh : Nat) (st : MeasState)
    (iters : List (ℚ × List (List ℚ) × Bool)) : MeasState :=
  iters.foldl (fun s it => loopStep c rt numCh s it.1 it.2.1 it.2.2) st

/-- The drain of `DataAcquisition._data_acquisition` (lines 323-326): deep-copy
the queues as the snapshot and re-initialize every queue to empty. -/
def drainQ (numCh : Nat) (queues : List (List ℚ)) :
    List (List ℚ) × List (List ℚ) :=
  (queues, List.replicate (numCh + 1) [])

/-- `np.array(data).T.reshape((-1, len(channel)+1))` (lines 328-329) for `data`
a list of equal-length-`k` rows: the transpose, row `i` holding the `i`-th
entry of every queue. -/
def npTransposeReshape (data : List (List ℚ)) (k : Nat) : List (List ℚ) :=
  (List.range k).map (fun i => data.map (fun q => q.getD i 0))

/-- CSV header of `DataAcquisition.__init__` (line 294):
`['timestamp'] + [f'ch_{i}' for i in channel]`, in configured channel order. -/
def csvColumns (channel : List Nat) : List String :=
  "timestamp" :: channel.map (fun i => s!"ch_{i}")

/-- `min(self.channel)` (lines 245-247): Python's `min` over a non-empty
list (the empty case is unreachable — `min([])` raises). -/
def pyMin : List Nat → Nat
  | [] => 0
  | x :: xs => xs.foldl Nat.min x

/-- `max(self.channel)` (lines 245-247): Python's `max` over a non-empty
list (the empty case is unreachable — `max([])` raises). -/
def pyMax : List Nat → Nat
  | [] => 0
  | x :: xs => xs.foldl Nat.max x

/-- Lines 244-247 and 261-262 of `Measurement.run`: the task reads the
hardware channels `ai{min}:{max}`, which the driver delivers in ascending
index order, and `_channel_bool = [_ch in self.channel for _ch in
range(min(self.channel), max(self.channel)+1)]` keeps exactly the configured
ones (line 262).  The `j`-th retained sample list — and so queue `j+1` — thus
belongs to the `j`-th configured channel in ascending channel-index order,
regardless of the order of the configured list.  (For a single channel the
code takes the `str(self.channel[0])` branch and wraps the read in a
one-element list; the formula below agrees.) -/
def selectedChannels (channel : List Nat) : List Nat :=
  ((List.range (pyMax channel + 1 - pyMin channel)).map
    (fun i => pyMin channel + i)).filter (fun ch => ch ∈ channel)

/-- One tick of `DataAcquisition._data_acquisition` (lines 321-332): drain the
queues, and if the snapshot's timestamp queue is non-empty reshape it into rows
(returned as `some rows`); an empty snapshot exports nothing (`none`).  The
queues are re-initialized in either case. -/
def dataAcquisitionStep (numCh : Nat) (queues : List (List ℚ)) :
    Option (List (List ℚ)) × List (List ℚ) :=
  let drained := drainQ numCh queues
  if 0 < (drained.1.getD 0 []).length then
    (some (npTransposeReshape drained.1 (drained.1.getD 0 []).length),
      drained.2)
  else (none, drained.2)

/-- The on-disk CSV file: the header row written at creation and the data rows
appended so far. -/
structure FileState where
  header : List String
  rows : List (List ℚ)
  deriving Repr, DecidableEq

/-- Errors of the storage layer. -/
inductive FsError where
  | alreadyExists : FsError
  deriving Repr, DecidableEq

/-- `pd.DataFrame([], columns).to_csv(path, mode='x')` (lines 306-310): with
`mode='x'` the open fails with `FileExistsError` when `path` is occupied,
leaving the existing file untouched; otherwise the file is created holding
exactly the header row.  `fs` is the content at the target path. -/
def createSession (fs : Option FileState) (cols : List String) :
    Option FileState × Except FsError Unit :=
  match fs with
  | some f => (some f, Except.error FsError.alreadyExists)
  | none => (some ⟨cols, []⟩, Except.ok ())

/-- `DataAcquisition._export_data` (lines 334-341): `to_csv(mode='a',
header=False)` appends the rows after the existing content, rewriting
nothing. -/
def appendRows (f : FileState) (rows : List (List ℚ)) : FileState :=
  ⟨f.header, f.rows ++ rows⟩

/-- Digits of a Python integer literal: non-empty and all decimal. -/
def parseDigits (cs : List Char) : Option Nat :=
  if cs ≠ [] ∧ cs.all Char.isDigit then
    some (cs.foldl (fun a c => a * 10 + (c.toNat - 48)) 0)
  else none

/-- Python's `int(s)` on a config entry (lines 151-155): an optional sign
followed by decimal digits parses; anything else raises `ValueError`
(`none`). -/
def parsePyInt (s : String) : Option Int :=
  match s.toList with
  | '-' :: rest => (parseDigits rest).map (fun n => -(n : Int))
  | '+' :: rest => (parseDigits rest).map (fun n => (n : Int))
  | cs => (parseDigits cs).map (fun n => (n : Int))

/-- Python's `str.split(',')` over the characters of the string: on `""` it
yields `[""]`, never an empty list. -/
def splitComma : List Char → List (List Char)
  | [] => [[]]
  | c :: rest =>
    if c = ',' then [] :: splitComma rest
    else
      match splitComma rest with
      | [] => [[c]]
      | f :: fs => (c :: f) :: fs

/-- The configuration fields `Measurement` consumes. `data_length` always
comes from `DEFAULT_SETTING` (10000): `Gui._set_config` never overwrites it. -/
structure Config where
  channel : List Int
  samplingRate : Int
  readSamples : Int
  dataLength : Int
  deriving Repr, DecidableEq

/-- `Gui._set_config` (lines 148-157): the channel entry is split on commas and
each field fed to `int`, as are the sampling-rate and read-samples entries; a
`ValueError` from any `int` call aborts (`none`).  No positivity check and no
distinctness check is performed. -/
def setConfig (channelEntry samplingRateEntry readSamplesEntry : String) :
    Option Config := do
  let chs ← (splitComma channelEntry.toList).mapM
    (fun cs => parsePyInt (String.mk cs))
  let sr ← parsePyInt samplingRateEntry
  let rs ← parsePyInt readSamplesEntry
  pure ⟨chs, sr, rs, 10000⟩

/-- Outcome of pressing start. -/
inductive StartOutcome where
  | configError : StartOutcome
  | started : Config → StartOutcome
  deriving Repr, DecidableEq

/-- `Gui._start` (lines 182-188): `_set_config` runs first; only when every
`int` call succeeds is `DataAcquisition` constructed and its thread (and in
turn the measurement thread) spawned. -/
def startSession (channelEntry samplingRateEntry readSamplesEntry : String) :
    StartOutcome :=
  match setConfig channelEntry samplingRateEntry readSamplesEntry with
  | none => StartOutcome.configError
  | some cfg => StartOutcome.started cfg

/-! ### Helper lemmas -/

theorem dequeExtend_length (c : Nat) (q xs : List ℚ) :
    (dequeExtend c q xs).length = min (q.length + xs.length) c := by
  simp only [dequeExtend, List.length_drop, List.length_append]
  omega

theorem dequeExtend_nil_nil (c : Nat) : dequeExtend c [] [] = [] := by
  simp [dequeExtend]

theorem extendEach_getD (c : Nat) :
    ∀ (qs vs : List (List ℚ)), qs.length = vs.length → ∀ j,
      (extendEach c qs vs).getD j [] =
        dequeExtend c (qs.getD j []) (vs.getD j []) := by
  intro qs
  induction qs with
  | nil =>
    intro vs h j
    have : vs = [] := List.eq_nil_of_length_eq_zero h.symm
    subst this
    simp [extendEach, dequeExtend_nil_nil]
  | cons q qs ih =>
    intro vs h j
    cases vs with
    | nil => simp at h
    | cons v vs =>
      cases j with
      | zero => simp [extendEach]
      | succ j =>
        simp only [extendEach, List.getD_cons_succ]
        exact ih vs (by simpa using h) j

theorem extendEach_length_mem (c l p : Nat) :
    ∀ (qs vs : List (List ℚ)), qs.length = vs.length →
      (∀ q ∈ qs, q.length = l) → (∀ v ∈ vs, v.length = p) →
      ∀ r ∈ extendEach c qs vs, r.length = min (l + p) c := by
  intro qs
  induction qs with
  | nil =>
    intro vs h _ _ r hr
    have : vs = [] := List.eq_nil_of_length_eq_zero h.symm
    subst this
    simp [extendEach] at hr
  | cons q qs ih =>
    intro vs h hq hv r hr
    cases vs with
    | nil => simp at h
    | cons v vs =>
      simp only [extendEach, List.mem_cons] at hr
      rcases hr with hr | hr
      · subst hr
        rw [dequeExtend_length, hq q (by simp), hv v (by simp)]
      · exact ih vs (by simpa using h)
          (fun x hx => hq x (List.mem_cons_of_mem _ hx))
          (fun x hx => hv x (List.mem_cons_of_mem _ hx)) r hr

theorem tsVector_eq_map (t d : ℚ) (n : Nat) :
    tsVector t d n =
      (List.range n).map (fun i : ℕ => t + (i : ℚ) * d / (n : ℚ)) := by
  have h1 : linspace t (t + d) (n + 1) =
      (List.range n).map (fun i : ℕ => t + (i : ℚ) * d / (n : ℚ)) ++
        [t + (n : ℚ) * d / (n : ℚ)] := by
    unfold linspace
    rw [List.range_succ, List.map_append]
    congr 1
    · refine List.map_congr_left (fun i hi => ?_)
      push_cast
      ring_nf
    · simp only [List.map_cons, List.map_nil]
      congr 1
      push_cast
      ring_nf
  unfold tsVector
  rw [h1, List.dropLast_concat]

theorem tsVector_length (t d : ℚ) (n : Nat) : (tsVector t d n).length = n := by
  rw [tsVector_eq_map]
  simp

theorem zipWith_append_getD_zero (d blk : List (List ℚ)) (hd : d ≠ [])
    (hb : blk ≠ []) :
    (List.zipWith (· ++ ·) d blk).getD 0 [] = d.getD 0 [] ++ blk.getD 0 [] := by
  cases d with
  | nil => exact absurd rfl hd
  | cons x xs =>
    cases blk with
    | nil => exact absurd rfl hb
    | cons y ys => rfl

theorem zipWith_append_ne_nil (d blk : List (List ℚ)) (hd : d ≠ [])
    (hb : blk ≠ []) : List.zipWith (· ++ ·) d blk ≠ [] := by
  cases d with
  | nil => exact absurd rfl hd
  | cons x xs =>
    cases blk with
    | nil => exact absurd rfl hb
    | cons y ys => simp

theorem foldl_zipWith_getD_zero :
    ∀ (blocks : List (List (List ℚ))) (d : List (List ℚ)), d ≠ [] →
      (∀ blk ∈ blocks, blk ≠ []) →
      (blocks.foldl (fun acc b => List.zipWith (· ++ ·) acc b) d).getD 0 [] =
        blocks.foldl (fun acc b => acc ++ b.getD 0 []) (d.getD 0 []) := by
  intro blocks
  induction blocks with
  | nil => intro d _ _; rfl
  | cons blk blocks ih =>
    intro d hd hblk
    simp only [List.foldl_cons]
    rw [ih _ (zipWith_append_ne_nil d blk hd (hblk blk (by simp)))
        (fun x hx => hblk x (List.mem_cons_of_mem _ hx)),
      zipWith_append_getD_zero d blk hd (hblk blk (by simp))]

theorem foldl_append_length :
    ∀ (blocks : List (List (List ℚ))) (s : List ℚ),
      (blocks.foldl (fun acc b => acc ++ b.getD 0 []) s).length =
        s.length + (blocks.map (fun b => (b.getD 0 []).length)).sum := by
  intro blocks
  induction blocks with
  | nil => intro s; simp
  | cons blk blocks ih =>
    intro s
    simp only [List.foldl_cons, List.map_cons, List.sum_cons]
    rw [ih]
    simp only [List.length_append]
    omega

theorem runIters_locked (c : Nat) (rt : ℚ) (numCh : Nat) :
    ∀ (locked : List (ℚ × List (List ℚ))) (q d : List (List ℚ)),
      runIters c rt numCh ⟨q, d⟩ (locked.map (fun p => (p.1, p.2, true))) =
        ⟨q, locked.foldl (fun acc p => List.zipWith (· ++ ·) acc p.2) d⟩ := by
  intro locked
  induction locked with
  | nil => intro q d; rfl
  | cons p locked ih =>
    intro q d
    simp only [List.map_cons, runIters, List.foldl_cons, loopStep, if_true]
    exact ih q (List.zipWith (· ++ ·) d p.2)

theorem dequeList_zero_ok : ∀ n : Nat, dequeList 0 n = Except.ok (List.replicate n []) := by
  intro n
  induction n with
  | zero => rfl
  | succ n ih =>
    simp [dequeList, dequeNew, ih, List.replicate_succ, Bind.bind, Except.bind,
      Pure.pure, Except.pure]

theorem accumData_append_one (numCh : Nat) (blocks : List (List (List ℚ)))
    (b : List (List ℚ)) :
    accumData numCh (blocks ++ [b]) =
      List.zipWith (· ++ ·) (accumData numCh blocks) b := by
  unfold accumData
  rw [List.foldl_append]
  rfl

/-! ### Claim theorems -/

/-- C1 (amended): for every iteration in which the drain gate (the `lock`
flag) is set when a block has been read, the loop does not mutate the
ring-buffer queues in that iteration; the block's samples are, however, not
discarded — they are retained in the local accumulator `data` (and enqueued on
a later iteration with the gate clear). -/
theorem c1_gate_no_mutation (c : Nat) (rt : ℚ) (numCh : Nat) (st : MeasState)
    (starttime : ℚ) (block : List (List ℚ)) :
    (loopStep c rt numCh st starttime block true).queues = st.queues ∧
    (loopStep c rt numCh st starttime block true).data =
      List.zipWith (· ++ ·) st.data block := by
  constructor <;> simp [loopStep]

/-- C1 counterexample: one channel, capacity 10, block size 1 at 1000 Hz
(`rt = 1/10`).  The block `[5]` is read while the gate is set: the queues stay
empty on that iteration, but on the next iteration (gate clear, block `[7]`)
the sample 5 IS enqueued into the channel queue — refuting the claim that
samples read while the gate was set are never enqueued on any later
iteration. -/
theorem c1_counterexample :
    (loopStep 10 (1 / 10) 1 ⟨[[], []], [[], []]⟩ 0 [[5]] true).queues.getD 1 []
        = [] ∧
    (5 : ℚ) ∈ (loopStep 10 (1 / 10) 1
        (loopStep 10 (1 / 10) 1 ⟨[[], []], [[], []]⟩ 0 [[5]] true)
        100 [[7]] false).queues.getD 1 [] := by
  constructor
  · norm_num [loopStep]
  · norm_num [loopStep, pushAll, extendEach, dequeExtend, tsVector, linspace,
      List.range_succ]

/-- C3: for every block with start time `t`, `n ≥ 1` samples and block
duration `d = block_size / sampling_rate`, the generated timestamp vector is
exactly the `n` instants `t, t + d/n, t + 2·d/n, …, t + (n-1)·d/n`, and its
last element is strictly less than `t + d`. -/
theorem c3_timestamp_vector (t : ℚ) (blockSize samplingRate n : Nat)
    (hbs : 1 ≤ blockSize) (hsr : 1 ≤ samplingRate) (hn : 1 ≤ n) :
    tsVector t (read_timeout blockSize samplingRate) n =
      (List.range n).map
        (fun i : ℕ =>
          t + (i : ℚ) * read_timeout blockSize samplingRate / (n : ℚ)) ∧
    (tsVector t (read_timeout blockSize samplingRate) n).length = n ∧
    (tsVector t (read_timeout blockSize samplingRate) n).getLast? =
      some (t + ((n : ℚ) - 1) * read_timeout blockSize samplingRate / (n : ℚ)) ∧
    t + ((n : ℚ) - 1) * read_timeout blockSize samplingRate / (n : ℚ) <
      t + read_timeout blockSize samplingRate := by
  obtain ⟨m, rfl⟩ : ∃ m, n = m + 1 := ⟨n - 1, by omega⟩
  have hb0 : (0 : ℚ) < (blockSize : ℚ) := by exact_mod_cast hbs
  have hs0 : (0 : ℚ) < (samplingRate : ℚ) := by exact_mod_cast hsr
  have hd : 0 < read_timeout blockSize samplingRate := div_pos hb0 hs0
  refine ⟨tsVector_eq_map _ _ _, tsVector_length _ _ _, ?_, ?_⟩
  · rw [tsVector_eq_map, List.range_succ, List.map_append]
    simp only [List.map_cons, List.map_nil]
    rw [List.getLast?_concat]
    congr 1
    push_cast
    ring_nf
  · rw [add_lt_add_iff_left]
    have hn0 : (0 : ℚ) < (m : ℚ) + 1 := by positivity
    have hcast : ((m + 1 : ℕ) : ℚ) = (m : ℚ) + 1 := by push_cast; ring
    rw [hcast, div_lt_iff hn0]
    nlinarith [hd]

/-- Witness for C3 at `t = 0`, `blockSize = 100`, `samplingRate = 1000`,
`n = 1`: the single generated instant is `t` itself, below `t + d`. -/
theorem c3_timestamp_vector_witness :
    (1 ≤ 100 ∧ 1 ≤ 1000 ∧ 1 ≤ 1) ∧
    (tsVector 0 (read_timeout 100 1000) 1).getLast? = some 0 := by
  refine ⟨⟨by norm_num, by norm_num, by norm_num⟩, ?_⟩
  have h := (c3_timestamp_vector 0 100 1000 1 (by norm_num) (by norm_num)
    (by norm_num)).2.2.1
  simpa using h

/-- C4 counterexample: for `startTimestampNs = 1000`,
`blockDuration = 10_000_000 ns`, `n = 5`, the interval spacing is
`10_000_000 / 5 = 2_000_000 ns`, so the produced vector is not
`[1000, 3000, 5000, 7000, 9000]`. -/
theorem c4_counterexample :
    tsVector 1000 10000000 5 ≠ [1000, 3000, 5000, 7000, 9000] := by
  norm_num [tsVector, linspace, List.range_succ]

/-- C4 (amended): for `startTimestampNs = 1000`,
`blockDuration = 10_000_000 ns`, `n = 5`, the timestamp-vector generation
produces exactly `[1000, 2001000, 4001000, 6001000, 8001000]` (spacing
`blockDuration / n = 2_000_000 ns`). -/
theorem c4_exact_values :
    tsVector 1000 10000000 5 = [1000, 2001000, 4001000, 6001000, 8001000] := by
  norm_num [tsVector, linspace, List.range_succ]

/-- C10: when the drain gate is set during consecutive acquisition-loop
iterations, the samples read in those iterations are retained in the local
accumulator (the queues stay untouched); on the first subsequent iteration
with the gate clear, the whole accumulated batch — all retained blocks plus
the current block, `accumData` — is enqueued at once, with its timestamp
vector spacing the total accumulated sample count evenly over a single block
duration (`rt * 1e9` nanoseconds) starting at the most recent block's start
time `t`. -/
theorem c10_locked_accumulation (c : Nat) (rt : ℚ) (numCh : Nat)
    (q : List (List ℚ)) (locked : List (ℚ × List (List ℚ))) (t : ℚ)
    (b : List (List ℚ)) (hn : 1 ≤ numCh)
    (hch : ∀ p ∈ locked, p.2.length = numCh) (hb : b.length = numCh) :
    (runIters c rt numCh ⟨q, List.replicate (numCh + 1) []⟩
        (locked.map (fun p => (p.1, p.2, true)))).queues = q ∧
    runIters c rt numCh ⟨q, List.replicate (numCh + 1) []⟩
        (locked.map (fun p => (p.1, p.2, true)) ++ [(t, b, false)]) =
      ⟨pushAll c q
          (tsVector t (rt * 1000000000)
            ((accumData numCh (locked.map Prod.snd ++ [b])).getD 0 []).length)
          (accumData numCh (locked.map Prod.snd ++ [b])),
        List.replicate (numCh + 1) []⟩ ∧
    ((accumData numCh (locked.map Prod.snd ++ [b])).getD 0 []).length =
      (locked.map (fun p => (p.2.getD 0 []).length)).sum +
        (b.getD 0 []).length := by
  have hlocked := runIters_locked c rt numCh locked q
    (List.replicate (numCh + 1) [])
  have hfold : locked.foldl (fun acc p => List.zipWith (· ++ ·) acc p.2)
      (List.replicate (numCh + 1) ([] : List ℚ)) =
      accumData numCh (locked.map Prod.snd) := by
    rw [accumData, List.foldl_map]
  refine ⟨by rw [hlocked], ?_, ?_⟩
  · have hstep : runIters c rt numCh ⟨q, List.replicate (numCh + 1) []⟩
        (locked.map (fun p => (p.1, p.2, true)) ++ [(t, b, false)]) =
        loopStep c rt numCh ⟨q, accumData numCh (locked.map Prod.snd)⟩
          t b false := by
      simp only [runIters] at hlocked ⊢
      rw [List.foldl_append, hlocked, hfold]
      rfl
    rw [hstep, accumData_append_one]
    simp [loopStep]
  · have hne : ∀ blk ∈ locked.map Prod.snd ++ [b], blk ≠ [] := by
      intro blk hblk
      rcases List.mem_append.mp hblk with hblk | hblk
      · obtain ⟨p, hp, rfl⟩ := List.mem_map.mp hblk
        have := hch p hp
        intro hnil
        rw [hnil] at this
        simp at this
        omega
      · have hbb : blk = b := by simpa using hblk
        subst hbb
        intro hnil
        rw [hnil] at hb
        simp at hb
        omega
    have hrep : (List.replicate (numCh + 1) ([] : List ℚ)) ≠ [] := by simp
    rw [accumData, foldl_zipWith_getD_zero _ _ hrep hne, foldl_append_length]
    have h0 : ((List.replicate (numCh + 1) ([] : List ℚ)).getD 0 []).length
        = 0 := by simp [List.replicate_succ]
    rw [h0, List.map_append, List.sum_append, List.map_map]
    have hcomp : locked.map
        ((fun blk : List (List ℚ) => (blk.getD 0 []).length) ∘ Prod.snd) =
        locked.map (fun p => (p.2.getD 0 []).length) := rfl
    rw [hcomp]
    simp

/-- Witness for C10: one channel, one locked iteration reading block `[5]` at
time 0, then a clear iteration reading `[7]` at time 100. -/
theorem c10_locked_accumulation_witness :
    ((1 : Nat) ≤ 1 ∧ (∀ p ∈ [((0 : ℚ), [[(5 : ℚ)]])], p.2.length = 1) ∧
      ([[(7 : ℚ)]] : List (List ℚ)).length = 1) ∧
    (runIters 10 (1 / 10) 1 ⟨[[], []], [[], []]⟩
        ([((0 : ℚ), [[(5 : ℚ)]])].map (fun p => (p.1, p.2, true)) ++
          [((100 : ℚ), [[(7 : ℚ)]], false)])).queues =
      pushAll 10 [[], []]
        (tsVector 100 ((1 / 10) * 1000000000)
          ((accumData 1 ([((0 : ℚ), [[(5 : ℚ)]])].map Prod.snd ++
            [[[(7 : ℚ)]]])).getD 0 []).length)
        (accumData 1 ([((0 : ℚ), [[(5 : ℚ)]])].map Prod.snd ++
          [[[(7 : ℚ)]]])) := by
  refine ⟨⟨by norm_num, by simp, by simp⟩, ?_⟩
  have h := (c10_locked_accumulation 10 (1 / 10) 1 [[], []]
    [((0 : ℚ), [[(5 : ℚ)]])] 100 [[7]] (by norm_num) (by simp) (by simp)).2.1
  rw [show (⟨[[], []], [[], []]⟩ : MeasState) =
      ⟨[[], []], List.replicate (1 + 1) []⟩ by simp [List.replicate_succ], h]

/-- C5: pushing non-empty, equal-length timestamp and per-channel value
sequences into a ring buffer of capacity `c ≥ 1` leaves each queue with length
`min(previous length + pushed length, c)`; if all queues had equal length
before the push, they all have equal length `min(previous + pushed, c)` after
it. -/
theorem c5_push_lengths (c : Nat) (hc : 1 ≤ c) (q0 : List ℚ)
    (qs : List (List ℚ)) (ts : List ℚ) (vals : List (List ℚ))
    (hne : ts ≠ []) (hv : ∀ v ∈ vals, v.length = ts.length)
    (hcount : qs.length = vals.length) :
    ((pushAll c (q0 :: qs) ts vals).getD 0 []).length =
      min (q0.length + ts.length) c ∧
    (∀ j, j < qs.length →
      ((pushAll c (q0 :: qs) ts vals).getD (j + 1) []).length =
        min ((qs.getD j []).length + ts.length) c) ∧
    ((∀ q ∈ qs, q.length = q0.length) →
      ∀ q ∈ pushAll c (q0 :: qs) ts vals,
        q.length = min (q0.length + ts.length) c) := by
  refine ⟨?_, ?_, ?_⟩
  · simp only [pushAll, List.getD_cons_zero]
    exact dequeExtend_length c q0 ts
  · intro j hj
    simp only [pushAll, List.getD_cons_succ]
    rw [extendEach_getD c qs vals hcount j, dequeExtend_length]
    have hjv : j < vals.length := hcount ▸ hj
    rw [List.getD_eq_getElem vals [] hjv, hv _ (List.getElem_mem hjv)]
  · intro hall q hq
    simp only [pushAll, List.mem_cons] at hq
    rcases hq with rfl | hq
    · exact dequeExtend_length c q0 ts
    · exact extendEach_length_mem c q0.length ts.length qs vals hcount
        hall hv q hq

/-- Witness for C5: capacity 3, two queues of length 2, two samples pushed per
queue — each queue ends at length `min (2+2) 3 = 3`. -/
theorem c5_push_lengths_witness :
    ((1 : Nat) ≤ 3 ∧ ([(10 : ℚ), 20] : List ℚ) ≠ [] ∧
      (∀ v ∈ [[(5 : ℚ), 6]], v.length = ([(10 : ℚ), 20] : List ℚ).length) ∧
      ([[(3 : ℚ), 4]] : List (List ℚ)).length = ([[(5 : ℚ), 6]] :
        List (List ℚ)).length) ∧
    ((pushAll 3 [[(1 : ℚ), 2], [3, 4]] [10, 20] [[5, 6]]).getD 0 []).length
      = min (2 + 2) 3 := by
  refine ⟨⟨by norm_num, by simp, ?_, by simp⟩, ?_⟩
  · intro v hv
    simp only [List.mem_singleton] at hv
    subst hv
    rfl
  · have h := (c5_push_lengths 3 (by norm_num) [(1 : ℚ), 2] [[(3 : ℚ), 4]]
      [10, 20] [[5, 6]] (by simp)
      (by intro v hv; simp only [List.mem_singleton] at hv; subst hv; rfl)
      (by simp)).1
    simpa using h

/-- C6: `drain()` returns all current queue contents and resets every queue to
empty; a drain immediately followed by a push of sequences of length `m`
leaves every queue with length exactly `min(m, capacity)` — in particular `m`
whenever `m ≤ capacity` — regardless of the buffer's contents before the
drain. -/
theorem c6_drain_then_push (c numCh : Nat) (queues : List (List ℚ))
    (ts : List ℚ) (vals : List (List ℚ)) (m : Nat)
    (hts : ts.length = m) (hv : ∀ v ∈ vals, v.length = m)
    (hnv : vals.length = numCh) :
    (drainQ numCh queues).1 = queues ∧
    (∀ q ∈ (drainQ numCh queues).2, q = []) ∧
    (∀ q ∈ pushAll c (drainQ numCh queues).2 ts vals, q.length = min m c) ∧
    (m ≤ c → ∀ q ∈ pushAll c (drainQ numCh queues).2 ts vals,
      q.length = m) := by
  have hrep : (drainQ numCh queues).2 =
      [] :: List.replicate numCh ([] : List ℚ) := by
    simp [drainQ, List.replicate_succ]
  have hlen : ∀ q ∈ pushAll c (drainQ numCh queues).2 ts vals,
      q.length = min m c := by
    intro q hq
    rw [hrep] at hq
    simp only [pushAll, List.mem_cons] at hq
    rcases hq with rfl | hq
    · rw [dequeExtend_length]
      simp [hts]
    · have := extendEach_length_mem c 0 m (List.replicate numCh []) vals
        (by simp [hnv]) (fun x hx => by rw [List.eq_of_mem_replicate hx]; rfl)
        hv q hq
      simpa using this
  refine ⟨rfl, ?_, hlen, fun hmc q hq => ?_⟩
  · intro q hq
    simp only [drainQ] at hq
    exact List.eq_of_mem_replicate hq
  · rw [hlen q hq, min_eq_left hmc]

/-- Witness for C6: drain a two-queue buffer holding one sample, then push two
samples with capacity 5 — every queue ends at length `2 = min 2 5`. -/
theorem c6_drain_then_push_witness :
    (([(1 : ℚ), 2] : List ℚ).length = 2 ∧
      (∀ v ∈ [[(3 : ℚ), 4]], v.length = 2) ∧
      ([[(3 : ℚ), 4]] : List (List ℚ)).length = 1) ∧
    (∀ q ∈ pushAll 5 (drainQ 1 [[(9 : ℚ)], [8]]).2 [1, 2] [[3, 4]],
      q.length = 2) := by
  refine ⟨⟨by simp, ?_, by simp⟩, ?_⟩
  · intro v hv
    simp only [List.mem_singleton] at hv
    subst hv
    rfl
  · exact (c6_drain_then_push 5 1 [[(9 : ℚ)], [8]] [1, 2] [[3, 4]] 2
      (by simp)
      (by intro v hv; simp only [List.mem_singleton] at hv; subst hv; rfl)
      (by simp)).2.2.2 (by norm_num)

/-- C7: session creation fails with an already-exists error when the output
file already exists at the target path and leaves the existing content
untouched; when no file exists, the header row is written exactly once at
creation and subsequent appends extend the row list without rewriting the
header or any prior row. -/
theorem c7_create_session (f : FileState) (cols : List String)
    (rows rows2 : List (List ℚ)) :
    createSession (some f) cols =
      (some f, Except.error FsError.alreadyExists) ∧
    createSession none cols = (some ⟨cols, []⟩, Except.ok ()) ∧
    appendRows ⟨cols, []⟩ rows = ⟨cols, rows⟩ ∧
    appendRows (appendRows ⟨cols, []⟩ rows) rows2 =
      ⟨cols, rows ++ rows2⟩ := by
  refine ⟨rfl, rfl, ?_, ?_⟩ <;> simp [appendRows]

/-- C8 counterexample: constructing the queues with `data_length = 0`
succeeds — `collections.deque(maxlen=0)` raises no error — refuting the claim
that buffer construction with capacity 0 does not succeed. -/
theorem c8_counterexample : q_init 0 2 = Except.ok [[], [], []] := rfl

/-- C8 (amended): constructing the ring buffer with capacity 0 succeeds, and
the resulting queues can never hold an element (every extend leaves a queue
empty, `min(·, 0) = 0`); only a negative capacity fails at construction. -/
theorem c8_capacity_zero (numCh : Nat) (q xs : List ℚ) :
    q_init 0 numCh = Except.ok (List.replicate (numCh + 1) []) ∧
    dequeExtend 0 q xs = [] ∧
    q_init (-1) numCh = Except.error "maxlen must be non-negative" := by
  refine ⟨dequeList_zero_ok (numCh + 1), ?_, ?_⟩
  · have h : q.length + xs.length - 0 = (q ++ xs).length := by simp
    rw [dequeExtend, h, List.drop_length]
  · show dequeList (-1) (numCh + 1) = _
    norm_num [dequeList, dequeNew, Bind.bind, Except.bind]

/-- C9 counterexample: the channel entry `"0,0"` (duplicate channels) and the
sampling-rate entry `"-5"` (not a positive integer) pass `_set_config`
unrejected, and the session starts — refuting the claim that such
configurations are reported as errors before any thread is spawned. -/
theorem c9_counterexample :
    startSession "0,0" "-5" "100" =
      StartOutcome.started ⟨[0, 0], -5, 100, 10000⟩ := by
  decide

/-- C9 (amended): if any numeric entry or any channel-list entry fails to
parse as an integer, `_set_config` raises before `DataAcquisition` is
constructed, so the session never starts and no thread is spawned; positivity
of the numeric fields and distinctness of the channel list are, however, not
checked. -/
theorem c9_parse_failure (ce sre rse : String)
    (h : (splitComma ce.toList).mapM (fun cs => parsePyInt (String.mk cs))
        = none ∨
      parsePyInt sre = none ∨ parsePyInt rse = none) :
    startSession ce sre rse = StartOutcome.configError := by
  cases h1 : (splitComma ce.toList).mapM (fun cs => parsePyInt (String.mk cs))
    with
  | none =>
    unfold startSession setConfig
    rw [h1]
    rfl
  | some chs =>
    cases h2 : parsePyInt sre with
    | none =>
      unfold startSession setConfig
      rw [h1, h2]
      rfl
    | some sr =>
      cases h3 : parsePyInt rse with
      | none =>
        unfold startSession setConfig
        rw [h1, h2, h3]
        rfl
      | some rs =>
        rcases h with h | h | h
        · rw [h1] at h
          exact absurd h (by simp)
        · rw [h2] at h
          exact absurd h (by simp)
        · rw [h3] at h
          exact absurd h (by simp)

/-- Witness for C9 (amended): the sampling-rate entry `"abc"` fails to parse,
and the session does not start. -/
theorem c9_parse_failure_witness :
    parsePyInt "abc" = none ∧
    startSession "0" "abc" "100" = StartOutcome.configError := by
  have hp : parsePyInt "abc" = none := by decide
  exact ⟨hp, c9_parse_failure "0" "abc" "100" (Or.inr (Or.inl hp))⟩

theorem foldl_min_le : ∀ (xs : List Nat) (a : Nat), xs.foldl Nat.min a ≤ a
  | [], a => Nat.le_refl a
  | x :: xs, a =>
    Nat.le_trans (foldl_min_le xs (Nat.min a x)) (Nat.min_le_left a x)

theorem foldl_min_le_mem :
    ∀ (xs : List Nat) (a x : Nat), x ∈ xs → xs.foldl Nat.min a ≤ x := by
  intro xs
  induction xs with
  | nil => intro a x hx; simp at hx
  | cons y ys ih =>
    intro a x hx
    simp only [List.foldl_cons]
    rcases List.mem_cons.mp hx with rfl | hx
    · exact Nat.le_trans (foldl_min_le ys (Nat.min a x)) (Nat.min_le_right a x)
    · exact ih (Nat.min a y) x hx

theorem pyMin_le_of_mem (l : List Nat) (x : Nat) (hx : x ∈ l) :
    pyMin l ≤ x := by
  cases l with
  | nil => simp at hx
  | cons y ys =>
    rcases List.mem_cons.mp hx with rfl | hx
    · exact foldl_min_le ys _
    · exact foldl_min_le_mem ys y x hx

theorem le_foldl_max : ∀ (xs : List Nat) (a : Nat), a ≤ xs.foldl Nat.max a
  | [], a => Nat.le_refl a
  | x :: xs, a =>
    Nat.le_trans (Nat.le_max_left a x) (le_foldl_max xs (Nat.max a x))

theorem le_foldl_max_mem :
    ∀ (xs : List Nat) (a x : Nat), x ∈ xs → x ≤ xs.foldl Nat.max a := by
  intro xs
  induction xs with
  | nil => intro a x hx; simp at hx
  | cons y ys ih =>
    intro a x hx
    simp only [List.foldl_cons]
    rcases List.mem_cons.mp hx with rfl | hx
    · exact Nat.le_trans (Nat.le_max_right a x) (le_foldl_max ys (Nat.max a x))
    · exact ih (Nat.max a y) x hx

theorem le_pyMax_of_mem (l : List Nat) (x : Nat) (hx : x ∈ l) :
    x ≤ pyMax l := by
  cases l with
  | nil => simp at hx
  | cons y ys =>
    rcases List.mem_cons.mp hx with rfl | hx
    · exact le_foldl_max ys _
    · exact le_foldl_max_mem ys y x hx

theorem mem_selectedChannels (channel : List Nat) (ch : Nat) :
    ch ∈ selectedChannels channel ↔ ch ∈ channel := by
  constructor
  · intro h
    unfold selectedChannels at h
    have h2 := (List.mem_filter.mp h).2
    simpa using h2
  · intro h
    have h1 : pyMin channel ≤ ch := pyMin_le_of_mem channel ch h
    have h2 : ch ≤ pyMax channel := le_pyMax_of_mem channel ch h
    unfold selectedChannels
    refine List.mem_filter.mpr ⟨?_, by simpa using h⟩
    refine List.mem_map.mpr ⟨ch - pyMin channel, ?_, by omega⟩
    exact List.mem_range.mpr (by omega)

theorem selectedChannels_pairwise (channel : List Nat) :
    List.Pairwise (· < ·) (selectedChannels channel) := by
  unfold selectedChannels
  exact (List.Pairwise.map _ (fun a b hab => by omega)
    (List.pairwise_lt_range _)).sublist (List.filter_sublist _)

/-- C2 counterexample: configured channel list `[1, 0]` (reachable — the GUI
parses the channel entry `"1,0"`).  The driver delivers the block in ascending
channel order, `selectedChannels [1, 0] = [0, 1]`, so channel 0's sample 100
lands in queue 1 and channel 1's sample 200 in queue 2; the drained snapshot
reshapes to the row `(0, 100, 200)`.  The CSV header is
`timestamp, ch_1, ch_0`, so the claim — value columns in the configured
channel order matching the header — demands the row `(0, 200, 100)` (channel
1's value first); the code produces `(0, 100, 200)` instead, putting channel
0's value under the header `ch_1`. -/
theorem c2_counterexample :
    selectedChannels [1, 0] = [0, 1] ∧
    csvColumns [1, 0] = ["timestamp", "ch_1", "ch_0"] ∧
    (dataAcquisitionStep 2
        (loopStep 10 (1 / 1000) 2 ⟨[[], [], []], [[], [], []]⟩ 0
          [[100], [200]] false).queues).1 = some [[0, 100, 200]] ∧
    (dataAcquisitionStep 2
        (loopStep 10 (1 / 1000) 2 ⟨[[], [], []], [[], [], []]⟩ 0
          [[100], [200]] false).queues).1 ≠ some [[0, 200, 100]] := by
  refine ⟨by decide, by decide, ?_, ?_⟩
  · norm_num [loopStep, pushAll, extendEach, dequeExtend, tsVector, linspace,
      List.range_succ, dataAcquisitionStep, drainQ, npTransposeReshape]
  · norm_num [loopStep, pushAll, extendEach, dequeExtend, tsVector, linspace,
      List.range_succ, dataAcquisitionStep, drainQ, npTransposeReshape]

/-- C2 (amended): a drain snapshot whose timestamp queue and per-channel
queues all hold `k ≥ 1` entries reshapes into exactly `k` rows; row `i` is the
timestamp at `i` followed by each value queue's entry at `i`, one value column
per configured channel, every row as wide as the CSV header
`timestamp, ch_<i0>, ch_<i1>, …`.  The value queues hold the configured
channels in ascending channel-index order — `selectedChannels channel`, which
is strictly increasing and has exactly the configured channels as members —
not in configured order, so the value columns line up with the header exactly
when the configured channel list is itself ascending. -/
theorem c2_reshape_rows_ascending (channel : List Nat) (tq : List ℚ)
    (chqs : List (List ℚ)) (k : Nat) (hk : 1 ≤ k) (ht : tq.length = k)
    (hc : ∀ q ∈ chqs, q.length = k) (hch : channel.length = chqs.length) :
    (dataAcquisitionStep chqs.length (tq :: chqs)).1 =
      some (npTransposeReshape (tq :: chqs) k) ∧
    (npTransposeReshape (tq :: chqs) k).length = k ∧
    (∀ i, i < k → (npTransposeReshape (tq :: chqs) k)[i]? =
      some (tq.getD i 0 :: chqs.map (fun q => q.getD i 0))) ∧
    (csvColumns channel).length = chqs.length + 1 ∧
    (∀ i, i < k →
      ((npTransposeReshape (tq :: chqs) k)[i]?.getD []).length =
        (csvColumns channel).length) ∧
    List.Pairwise (· < ·) (selectedChannels channel) ∧
    (∀ ch, ch ∈ selectedChannels channel ↔ ch ∈ channel) := by
  have hrow : ∀ i, i < k → (npTransposeReshape (tq :: chqs) k)[i]? =
      some (tq.getD i 0 :: chqs.map (fun q => q.getD i 0)) := by
    intro i hi
    simp [npTransposeReshape, List.getElem?_map, List.getElem?_range, hi]
  have hk0 : 0 < k := hk
  refine ⟨?_, ?_, hrow, ?_, ?_, selectedChannels_pairwise channel,
    fun ch => mem_selectedChannels channel ch⟩
  · simp [dataAcquisitionStep, drainQ, ht, hk0]
  · simp [npTransposeReshape]
  · simp [csvColumns, hch]
  · intro i hi
    rw [hrow i hi]
    simp [csvColumns, hch]

/-- Witness for C2 (amended) at the configured list `[1, 0]`: snapshot queues
`[10,20]`, `[1,2]`, `[3,4]` of length 2 — two rows, the first being
`(10, 1, 3)`, with the queues holding the channels in ascending order
`[0, 1]`. -/
theorem c2_reshape_rows_ascending_witness :
    ((1 : Nat) ≤ 2 ∧ ([(10 : ℚ), 20] : List ℚ).length = 2 ∧
      (∀ q ∈ [[(1 : ℚ), 2], [3, 4]], q.length = 2) ∧
      ([1, 0] : List Nat).length = ([[(1 : ℚ), 2], [3, 4]] :
        List (List ℚ)).length) ∧
    (npTransposeReshape [[(10 : ℚ), 20], [1, 2], [3, 4]] 2)[0]? =
      some [10, 1, 3] := by
  have hq : ∀ q ∈ [[(1 : ℚ), 2], [3, 4]], q.length = 2 := by
    intro q hq
    simp only [List.mem_cons, List.not_mem_nil, or_false] at hq
    rcases hq with rfl | rfl
    · rfl
    · rfl
  refine ⟨⟨by norm_num, by simp, hq, by simp⟩, ?_⟩
  have h := (c2_reshape_rows_ascending [1, 0] [(10 : ℚ), 20]
    [[(1 : ℚ), 2], [3, 4]] 2 (by norm_num) (by simp) hq (by simp)).2.2.1 0
    (by norm_num)
  simpa using h
